import Mathlib

/-!
Verification of `fs/mode.py` from pyfilesystem2: tools for managing mode
strings (as used by `FS.open` and `FS.openbin`).

Strings are embedded as `List Char`; raising `ValueError` is embedded as
returning `Except.error` carrying a `ModeError` value that identifies which
error message was produced.
-/

namespace FsMode

/-- The several distinct `ValueError` messages raised by `fs/mode.py`,
one constructor per message. -/
inductive ModeError where
  | emptyMode        -- "mode must not be empty"
  | invalidChars     -- "mode '{}' contains invalid characters"
  | badFirstChar     -- "mode must start with 'r', 'w', 'x', or 'a'"
  | binaryAndText    -- "mode can't be binary ('b') and text ('t')"
  | mustBeBinary     -- "mode must be binary"
  | textInOpenbin    -- "text mode not valid in openbin"
  deriving DecidableEq, Repr

/-- `frozenset('rwxtab+')`, the default `_valid_chars` of `Mode.validate`. -/
def validChars : List Char := ['r', 'w', 'x', 't', 'a', 'b', '+']

/-- The string `'rwxa'` against which `mode[0]` is tested. -/
def firstChars : List Char := ['r', 'w', 'x', 'a']

/-- `Mode.validate`: the four sequential checks, in source order, returning
the error of the first violated rule. -/
def validate (mode : List Char) : Except ModeError Unit :=
  match mode with
  | [] => Except.error ModeError.emptyMode
  | c :: rest =>
      if !((c :: rest).all fun ch => validChars.contains ch) then
        Except.error ModeError.invalidChars
      else if !(firstChars.contains c) then
        Except.error ModeError.badFirstChar
      else if (c :: rest).contains 't' && (c :: rest).contains 'b' then
        Except.error ModeError.binaryAndText
      else
        Except.ok ()

/-- The `Mode` class: an immutable wrapper around the raw mode string. -/
structure Mode where
  mode : List Char
  deriving DecidableEq, Repr

/-- `Mode(mode)`: `__init__` stores the raw string and calls `validate`,
propagating its error. -/
def mkMode (s : List Char) : Except ModeError Mode :=
  match validate s with
  | Except.error e => Except.error e
  | Except.ok _ => Except.ok ⟨s⟩

/-- `Mode.__str__`: returns the raw mode string. -/
def Mode.str (m : Mode) : List Char := m.mode

/-- `Mode.__contains__`: `c in self._mode`. -/
def Mode.containsChar (m : Mode) (c : Char) : Bool := m.mode.contains c

/-- `str.replace(c, '')`: removes every occurrence of the character `c`. -/
def removeChar (c : Char) : List Char → List Char
  | [] => []
  | a :: rest => if a == c then removeChar c rest else a :: removeChar c rest

/-- `Mode.to_platform`: the raw string, with `'x'` removed when the platform
(PY2) lacks exclusive-create support. The platform test `six.PY2` is passed
in as the boolean `py2`. -/
def Mode.to_platform (m : Mode) (py2 : Bool) : List Char :=
  if py2 then removeChar 'x' m.mode else m.mode

/-- `Mode.validate_bin`: runs `validate`, then fails if `'t'` is present. -/
def Mode.validate_bin (m : Mode) : Except ModeError Unit :=
  match validate m.mode with
  | Except.error e => Except.error e
  | Except.ok _ =>
      if m.containsChar 't' then Except.error ModeError.mustBeBinary
      else Except.ok ()

/-- `Mode.create`: `'w' in self or 'x' in self`. -/
def Mode.create (m : Mode) : Bool := m.containsChar 'w' || m.containsChar 'x'

/-- `Mode.reading`: `'r' in self or '+' in self`. -/
def Mode.reading (m : Mode) : Bool := m.containsChar 'r' || m.containsChar '+'

/-- `Mode.writing`: `'w' in self or 'a' in self or '+' in self or 'x' in self`. -/
def Mode.writing (m : Mode) : Bool :=
  m.containsChar 'w' || m.containsChar 'a' || m.containsChar '+' || m.containsChar 'x'

/-- `Mode.appending`: `'a' in self`. -/
def Mode.appending (m : Mode) : Bool := m.containsChar 'a'

/-- `Mode.updating`: `'+' in self`. -/
def Mode.updating (m : Mode) : Bool := m.containsChar '+'

/-- `Mode.truncate`: `'w' in self or 'x' in self`. -/
def Mode.truncate (m : Mode) : Bool := m.containsChar 'w' || m.containsChar 'x'

/-- `Mode.exclusive`: `'x' in self`. -/
def Mode.exclusive (m : Mode) : Bool := m.containsChar 'x'

/-- `Mode.binary`: `'b' in self`. -/
def Mode.binary (m : Mode) : Bool := m.containsChar 'b'

/-- `Mode.text`: `'t' in self or 'b' not in self`. -/
def Mode.text (m : Mode) : Bool := m.containsChar 't' || !(m.containsChar 'b')

/-- `check_readable`: `Mode(mode).reading`, propagating construction errors. -/
def check_readable (s : List Char) : Except ModeError Bool :=
  match mkMode s with
  | Except.error e => Except.error e
  | Except.ok m => Except.ok m.reading

/-- `check_writable`: `Mode(mode).writing`, propagating construction errors. -/
def check_writable (s : List Char) : Except ModeError Bool :=
  match mkMode s with
  | Except.error e => Except.error e
  | Except.ok m => Except.ok m.writing

/-- `validate_open_mode`: constructs `Mode(mode)` and discards the result. -/
def validate_open_mode (s : List Char) : Except ModeError Unit :=
  match mkMode s with
  | Except.error e => Except.error e
  | Except.ok _ => Except.ok ()

/-- `frozenset('rwxab+')`, the `_valid_chars` of `validate_openbin_mode`. -/
def openbinValidChars : List Char := ['r', 'w', 'x', 'a', 'b', '+']

/-- `validate_openbin_mode`: the stricter, separate grammar for binary-only
opens, with its four checks in source order. -/
def validate_openbin_mode (mode : List Char) : Except ModeError Unit :=
  if mode.contains 't' then Except.error ModeError.textInOpenbin
  else match mode with
  | [] => Except.error ModeError.emptyMode
  | c :: rest =>
      if !(firstChars.contains c) then
        Except.error ModeError.badFirstChar
      else if !((c :: rest).all fun ch => openbinValidChars.contains ch) then
        Except.error ModeError.invalidChars
      else
        Except.ok ()

/-! ### Helper lemmas -/

@[simp]
theorem contains_iff_mem (l : List Char) (c : Char) : l.contains c = true ↔ c ∈ l := by
  simp [List.contains]

theorem exceptUnit_isOk {ε : Type} (x : Except ε Unit) :
    x.isOk = true ↔ x = Except.ok () := by
  cases x with
  | error e => simp [Except.isOk, Except.toBool]
  | ok u => cases u; simp [Except.isOk, Except.toBool]

theorem mkMode_isOk (s : List Char) : (mkMode s).isOk = (validate s).isOk := by
  unfold mkMode
  cases h : validate s with
  | error e => simp [Except.isOk, Except.toBool]
  | ok u => simp [Except.isOk, Except.toBool]

theorem mkMode_mode {s : List Char} {m : Mode} (h : mkMode s = Except.ok m) :
    m.mode = s := by
  unfold mkMode at h
  cases hv : validate s with
  | error e => rw [hv] at h; exact absurd h (by simp)
  | ok u => rw [hv] at h; cases h; rfl

theorem validate_ok_iff (s : List Char) :
    validate s = Except.ok () ↔
      s ≠ [] ∧ (∀ c ∈ s, c ∈ validChars) ∧
        (∀ c rest, s = c :: rest → c ∈ firstChars) ∧ ¬('t' ∈ s ∧ 'b' ∈ s) := by
  cases s with
  | nil => simp [validate]
  | cons c rest =>
    constructor
    · intro h
      simp only [validate] at h
      split at h
      · exact absurd h (by simp)
      · split at h
        · exact absurd h (by simp)
        · split at h
          · exact absurd h (by simp)
          · rename_i hall hfst htb
            rw [Bool.not_eq_true'] at hall hfst
            replace hall := Bool.ne_false_iff.mp hall
            replace hfst := Bool.ne_false_iff.mp hfst
            rw [List.all_eq_true] at hall
            refine ⟨by simp,
              fun x hx => contains_iff_mem validChars x |>.mp (hall x hx), ?_, ?_⟩
            · intro c' rest' hcr
              cases hcr
              exact contains_iff_mem firstChars c |>.mp hfst
            · rintro ⟨ht, hb⟩
              exact htb (by simp [ht, hb])
    · rintro ⟨-, hc, hf, htb'⟩
      simp only [validate]
      have hA : ((c :: rest).all fun ch => validChars.contains ch) = true := by
        rw [List.all_eq_true]
        intro x hx
        exact contains_iff_mem validChars x |>.mpr (hc x hx)
      have hB : firstChars.contains c = true :=
        contains_iff_mem firstChars c |>.mpr (hf c rest rfl)
      have hC : ((c :: rest).contains 't' && (c :: rest).contains 'b') = false := by
        cases h1 : (c :: rest).contains 't' with
        | false => simp
        | true =>
          cases h2 : (c :: rest).contains 'b' with
          | false => simp [h2]
          | true =>
            exact (htb' ⟨contains_iff_mem _ _ |>.mp h1,
              contains_iff_mem _ _ |>.mp h2⟩).elim
      rw [hA, hB, hC]
      simp

/-! ### Claims -/

/-- C1: constructing `Mode(s)` succeeds iff `s` is non-empty, every character
of `s` is in `{r,w,x,t,a,b,+}`, the first character is in `{r,w,x,a}`, and `s`
does not contain both `'t'` and `'b'`; moreover `validate_open_mode s` fails
exactly when construction fails. -/
theorem c1_construction_iff (s : List Char) :
    ((mkMode s).isOk = true ↔
      (s ≠ [] ∧ (∀ c ∈ s, c ∈ validChars) ∧
        (∀ c rest, s = c :: rest → c ∈ firstChars) ∧ ¬('t' ∈ s ∧ 'b' ∈ s))) ∧
    (validate_open_mode s).isOk = (mkMode s).isOk := by
  constructor
  · rw [mkMode_isOk, exceptUnit_isOk]
    exact validate_ok_iff s
  · unfold validate_open_mode
    cases h : mkMode s with
    | error e => simp [Except.isOk, Except.toBool]
    | ok m => simp [Except.isOk, Except.toBool]

/-- C2: for every mode string accepted by construction, each of the nine
facets equals the table-defined containment function of the raw string:
create iff `'w'` or `'x'`; reading iff `'r'` or `'+'`; writing iff `'w'`,
`'a'`, `'+'` or `'x'`; appending iff `'a'`; updating iff `'+'`; truncate iff
`'w'` or `'x'`; exclusive iff `'x'`; binary iff `'b'`; text iff `'t'` present
or `'b'` absent. -/
theorem c2_facet_table (s : List Char) (m : Mode) (h : mkMode s = Except.ok m) :
    m.create = (s.contains 'w' || s.contains 'x') ∧
    m.reading = (s.contains 'r' || s.contains '+') ∧
    m.writing = (s.contains 'w' || s.contains 'a' || s.contains '+' || s.contains 'x') ∧
    m.appending = s.contains 'a' ∧
    m.updating = s.contains '+' ∧
    m.truncate = (s.contains 'w' || s.contains 'x') ∧
    m.exclusive = s.contains 'x' ∧
    m.binary = s.contains 'b' ∧
    m.text = (s.contains 't' || !(s.contains 'b')) := by
  have hm := mkMode_mode h
  cases hm
  exact ⟨rfl, rfl, rfl, rfl, rfl, rfl, rfl, rfl, rfl⟩

/-- Witness for C2 at the mode string "r+". -/
theorem c2_facet_table_witness :
    (⟨['r', '+']⟩ : Mode).create = (['r', '+'].contains 'w' || ['r', '+'].contains 'x') ∧
    (⟨['r', '+']⟩ : Mode).reading = (['r', '+'].contains 'r' || ['r', '+'].contains '+') ∧
    (⟨['r', '+']⟩ : Mode).writing =
      (['r', '+'].contains 'w' || ['r', '+'].contains 'a' ||
        ['r', '+'].contains '+' || ['r', '+'].contains 'x') ∧
    (⟨['r', '+']⟩ : Mode).appending = ['r', '+'].contains 'a' ∧
    (⟨['r', '+']⟩ : Mode).updating = ['r', '+'].contains '+' ∧
    (⟨['r', '+']⟩ : Mode).truncate = (['r', '+'].contains 'w' || ['r', '+'].contains 'x') ∧
    (⟨['r', '+']⟩ : Mode).exclusive = ['r', '+'].contains 'x' ∧
    (⟨['r', '+']⟩ : Mode).binary = ['r', '+'].contains 'b' ∧
    (⟨['r', '+']⟩ : Mode).text = (['r', '+'].contains 't' || !(['r', '+'].contains 'b')) :=
  c2_facet_table ['r', '+'] ⟨['r', '+']⟩ rfl

/-- C4: in `Mode.validate` the checks run in the listed order (empty, then
invalid character set, then bad first character, then conflicting `'t'` and
`'b'`) and the first violated rule determines the reported error; in
particular `Mode("tr")` fails with the bad-first-character error. -/
theorem c4_validate_order (s : List Char) :
    (s = [] → validate s = Except.error ModeError.emptyMode) ∧
    (s ≠ [] → (∃ c ∈ s, c ∉ validChars) →
      validate s = Except.error ModeError.invalidChars) ∧
    (∀ c rest, s = c :: rest → (∀ x ∈ s, x ∈ validChars) → c ∉ firstChars →
      validate s = Except.error ModeError.badFirstChar) ∧
    (∀ c rest, s = c :: rest → (∀ x ∈ s, x ∈ validChars) → c ∈ firstChars →
      't' ∈ s → 'b' ∈ s → validate s = Except.error ModeError.binaryAndText) ∧
    validate ['t', 'r'] = Except.error ModeError.badFirstChar := by
  refine ⟨?_, ?_, ?_, ?_, rfl⟩
  · rintro rfl
    rfl
  · intro hne hbad
    cases s with
    | nil => exact absurd rfl hne
    | cons c rest =>
      have hA : ((c :: rest).all fun ch => validChars.contains ch) = false := by
        rcases hbad with ⟨x, hx, hxv⟩
        rw [List.all_eq_false]
        exact ⟨x, hx, by simpa using hxv⟩
      have hA' : (!((c :: rest).all fun ch => validChars.contains ch)) = true := by
        rw [hA]
        rfl
      simp only [validate]
      rw [if_pos hA']
  · rintro c rest rfl hall hfst
    have hA : ((c :: rest).all fun ch => validChars.contains ch) = true := by
      rw [List.all_eq_true]
      intro x hx
      exact contains_iff_mem validChars x |>.mpr (hall x hx)
    have hA' : ¬((!((c :: rest).all fun ch => validChars.contains ch)) = true) := by
      rw [hA]
      exact fun hcon => nomatch hcon
    have hB : firstChars.contains c = false := by
      cases hb : firstChars.contains c with
      | false => rfl
      | true => exact absurd (contains_iff_mem _ _ |>.mp hb) hfst
    have hB' : (!(firstChars.contains c)) = true := by
      rw [hB]
      rfl
    simp only [validate]
    rw [if_neg hA', if_pos hB']
  · rintro c rest rfl hall hfst ht hb
    have hA : ((c :: rest).all fun ch => validChars.contains ch) = true := by
      rw [List.all_eq_true]
      intro x hx
      exact contains_iff_mem validChars x |>.mpr (hall x hx)
    have hA' : ¬((!((c :: rest).all fun ch => validChars.contains ch)) = true) := by
      rw [hA]
      exact fun hcon => nomatch hcon
    have hB : firstChars.contains c = true := contains_iff_mem _ _ |>.mpr hfst
    have hB' : ¬((!(firstChars.contains c)) = true) := by
      rw [hB]
      exact fun hcon => nomatch hcon
    have hC : ((c :: rest).contains 't' && (c :: rest).contains 'b') = true := by
      rw [Bool.and_eq_true]
      exact ⟨contains_iff_mem _ _ |>.mpr ht, contains_iff_mem _ _ |>.mpr hb⟩
    simp only [validate]
    rw [if_neg hA', if_neg hB', if_pos hC]

/-- Witness for C4: at the concrete inputs "" (empty error), "z" (charset
error), "tr" (first-character error) and "rtb" (conflict error). -/
theorem c4_validate_order_witness :
    validate [] = Except.error ModeError.emptyMode ∧
    validate ['z'] = Except.error ModeError.invalidChars ∧
    validate ['t', 'r'] = Except.error ModeError.badFirstChar ∧
    validate ['r', 't', 'b'] = Except.error ModeError.binaryAndText :=
  ⟨(c4_validate_order []).1 rfl,
   (c4_validate_order ['z']).2.1 (by decide) ⟨'z', by decide, by decide⟩,
   (c4_validate_order ['t', 'r']).2.2.2.2,
   (c4_validate_order ['r', 't', 'b']).2.2.2.1 'r' ['t', 'b'] rfl
     (by decide) (by decide) (by decide) (by decide)⟩

theorem mkMode_ok_validate {s : List Char} {m : Mode} (h : mkMode s = Except.ok m) :
    validate s = Except.ok () := by
  unfold mkMode at h
  cases hval : validate s with
  | error e => rw [hval] at h; exact absurd h (by simp)
  | ok u => cases u; rfl

theorem openbin_skip_t (c : Char) (rest : List Char)
    (h : (c :: rest).contains 't' = false) :
    validate_openbin_mode (c :: rest) =
      (if !(firstChars.contains c) then Except.error ModeError.badFirstChar
       else if !((c :: rest).all fun ch => openbinValidChars.contains ch) then
         Except.error ModeError.invalidChars
       else Except.ok ()) := by
  have hcond : ¬((c :: rest).contains 't' = true) := by
    rw [h]
    exact fun hcon => nomatch hcon
  unfold validate_openbin_mode
  rw [if_neg hcond]

/-- C3: `validate_openbin_mode s` rejects exactly when `s` contains `'t'`, or
is empty, or its first character is not in `{r,w,x,a}`, or some character is
outside `{r,w,x,a,b,+}`; and when several violations hold, the reported error
follows the precedence t-present > empty > bad-first-char > bad-charset (for
example `"zr"` reports the bad-first-char error). -/
theorem c3_openbin_mode (s : List Char) :
    ((validate_openbin_mode s).isOk = false ↔
      ('t' ∈ s ∨ s = [] ∨ (∃ c rest, s = c :: rest ∧ c ∉ firstChars) ∨
        ∃ c ∈ s, c ∉ openbinValidChars)) ∧
    ('t' ∈ s → validate_openbin_mode s = Except.error ModeError.textInOpenbin) ∧
    ('t' ∉ s → s = [] → validate_openbin_mode s = Except.error ModeError.emptyMode) ∧
    (∀ c rest, s = c :: rest → 't' ∉ s → c ∉ firstChars →
      validate_openbin_mode s = Except.error ModeError.badFirstChar) ∧
    (∀ c rest, s = c :: rest → 't' ∉ s → c ∈ firstChars →
      (∃ x ∈ s, x ∉ openbinValidChars) →
      validate_openbin_mode s = Except.error ModeError.invalidChars) ∧
    validate_openbin_mode ['z', 'r'] = Except.error ModeError.badFirstChar := by
  have partT : 't' ∈ s → validate_openbin_mode s = Except.error ModeError.textInOpenbin := by
    intro ht
    unfold validate_openbin_mode
    rw [if_pos (contains_iff_mem s 't' |>.mpr ht)]
  have partE : 't' ∉ s → s = [] → validate_openbin_mode s = Except.error ModeError.emptyMode := by
    rintro ht rfl
    rfl
  have hcf : 't' ∉ s → s.contains 't' = false := by
    intro ht
    cases hc : s.contains 't' with
    | false => rfl
    | true => exact absurd (contains_iff_mem _ _ |>.mp hc) ht
  have partF : ∀ c rest, s = c :: rest → 't' ∉ s → c ∉ firstChars →
      validate_openbin_mode s = Except.error ModeError.badFirstChar := by
    rintro c rest rfl ht hfst
    rw [openbin_skip_t c rest (hcf ht)]
    have hB : (!(firstChars.contains c)) = true := by
      cases hb : firstChars.contains c with
      | false => rfl
      | true => exact absurd (contains_iff_mem _ _ |>.mp hb) hfst
    rw [if_pos hB]
  have partC : ∀ c rest, s = c :: rest → 't' ∉ s → c ∈ firstChars →
      (∃ x ∈ s, x ∉ openbinValidChars) →
      validate_openbin_mode s = Except.error ModeError.invalidChars := by
    rintro c rest rfl ht hfst ⟨x, hx, hxbad⟩
    rw [openbin_skip_t c rest (hcf ht)]
    have hB : ¬((!(firstChars.contains c)) = true) := by
      rw [contains_iff_mem firstChars c |>.mpr hfst]
      exact fun hcon => nomatch hcon
    have hA : (!((c :: rest).all fun ch => openbinValidChars.contains ch)) = true := by
      have : ((c :: rest).all fun ch => openbinValidChars.contains ch) = false := by
        rw [List.all_eq_false]
        exact ⟨x, hx, by simpa using hxbad⟩
      rw [this]
      rfl
    rw [if_neg hB, if_pos hA]
  refine ⟨?_, partT, partE, partF, partC, ?_⟩
  · constructor
    · intro hrej
      by_contra hnone
      push_neg at hnone
      rcases hnone with ⟨ht, hne, hfst, hchar⟩
      cases s with
      | nil => exact hne rfl
      | cons c rest =>
        have hcfirst : c ∈ firstChars := hfst c rest rfl
        have hok : validate_openbin_mode (c :: rest) = Except.ok () := by
          rw [openbin_skip_t c rest (hcf ht)]
          have hB : ¬((!(firstChars.contains c)) = true) := by
            rw [contains_iff_mem firstChars c |>.mpr hcfirst]
            exact fun hcon => nomatch hcon
          have hA : ¬((!((c :: rest).all fun ch => openbinValidChars.contains ch)) = true) := by
            have : ((c :: rest).all fun ch => openbinValidChars.contains ch) = true := by
              rw [List.all_eq_true]
              intro x hx
              exact contains_iff_mem openbinValidChars x |>.mpr (hchar x hx)
            rw [this]
            exact fun hcon => nomatch hcon
          rw [if_neg hB, if_neg hA]
        rw [hok] at hrej
        exact absurd hrej (by simp [Except.isOk, Except.toBool])
    · intro hdisj
      have herr : ∃ e, validate_openbin_mode s = Except.error e := by
        by_cases ht : 't' ∈ s
        · exact ⟨_, partT ht⟩
        · rcases hdisj with ht' | hemp | ⟨c, rest, rfl, hfst⟩ | ⟨x, hx, hxbad⟩
          · exact absurd ht' ht
          · exact ⟨_, partE ht hemp⟩
          · exact ⟨_, partF c rest rfl ht hfst⟩
          · cases s with
            | nil => cases hx
            | cons c rest =>
              by_cases hcfirst : c ∈ firstChars
              · exact ⟨_, partC c rest rfl ht hcfirst ⟨x, hx, hxbad⟩⟩
              · exact ⟨_, partF c rest rfl ht hcfirst⟩
      rcases herr with ⟨e, he⟩
      rw [he]
      rfl
  · rfl

/-- Witness for C3 at the concrete inputs "rt" (t-present), "" (empty),
"zr" (bad first char, taking precedence over bad charset) and "r?"
(bad charset). -/
theorem c3_openbin_mode_witness :
    validate_openbin_mode ['r', 't'] = Except.error ModeError.textInOpenbin ∧
    validate_openbin_mode [] = Except.error ModeError.emptyMode ∧
    validate_openbin_mode ['z', 'r'] = Except.error ModeError.badFirstChar ∧
    validate_openbin_mode ['r', '?'] = Except.error ModeError.invalidChars :=
  ⟨(c3_openbin_mode ['r', 't']).2.1 (by decide),
   (c3_openbin_mode []).2.2.1 (by decide) rfl,
   (c3_openbin_mode ['z', 'r']).2.2.2.1 'z' ['r'] rfl (by decide) (by decide),
   (c3_openbin_mode ['r', '?']).2.2.2.2.1 'r' ['?'] rfl (by decide) (by decide)
     ⟨'?', by decide, by decide⟩⟩

/-- C5: `Mode.validate_bin` runs the same four checks as `validate` (so any
error of `validate` is reproduced unchanged) and then additionally fails
exactly when `'t'` is present in the raw string; for a `Mode` accepted by
construction it succeeds iff the raw string has no `'t'` — succeeding on
"rb" and failing on "rt". -/
theorem c5_validate_bin (m : Mode) :
    (∀ e, validate m.mode = Except.error e → m.validate_bin = Except.error e) ∧
    (validate m.mode = Except.ok () → 't' ∉ m.mode → m.validate_bin = Except.ok ()) ∧
    (validate m.mode = Except.ok () → 't' ∈ m.mode →
      m.validate_bin = Except.error ModeError.mustBeBinary) ∧
    (∀ s, mkMode s = Except.ok m → ((m.validate_bin).isOk = true ↔ 't' ∉ s)) ∧
    Mode.validate_bin ⟨['r', 'b']⟩ = Except.ok () ∧
    Mode.validate_bin ⟨['r', 't']⟩ = Except.error ModeError.mustBeBinary := by
  have hsucc : validate m.mode = Except.ok () → 't' ∉ m.mode →
      m.validate_bin = Except.ok () := by
    intro hv ht
    unfold Mode.validate_bin
    rw [hv]
    have hc : m.containsChar 't' = false := by
      cases hcc : m.containsChar 't' with
      | false => rfl
      | true => exact absurd (contains_iff_mem _ _ |>.mp hcc) ht
    rw [if_neg]
    rw [hc]
    exact fun hcon => nomatch hcon
  have hfail : validate m.mode = Except.ok () → 't' ∈ m.mode →
      m.validate_bin = Except.error ModeError.mustBeBinary := by
    intro hv ht
    unfold Mode.validate_bin
    rw [hv]
    rw [if_pos (show m.containsChar 't' = true from contains_iff_mem m.mode 't' |>.mpr ht)]
  refine ⟨?_, hsucc, hfail, ?_, rfl, rfl⟩
  · intro e he
    unfold Mode.validate_bin
    rw [he]
  · intro s hs
    have hm := mkMode_mode hs
    have hv := mkMode_ok_validate hs
    subst hm
    constructor
    · intro hok ht
      rw [hfail hv ht] at hok
      exact absurd hok (by simp [Except.isOk, Except.toBool])
    · intro ht
      rw [hsucc hv ht]
      rfl

/-- Witness for C5: "rb" passes binary validation, "rt" fails it, and for
the constructed `Mode("rb")` the success of `validate_bin` is equivalent to
the absence of `'t'`. -/
theorem c5_validate_bin_witness :
    Mode.validate_bin ⟨['r', 'b']⟩ = Except.ok () ∧
    Mode.validate_bin ⟨['r', 't']⟩ = Except.error ModeError.mustBeBinary ∧
    ((Mode.validate_bin ⟨['r', 'b']⟩).isOk = true ↔ 't' ∉ ['r', 'b']) :=
  ⟨(c5_validate_bin ⟨['r', 'b']⟩).2.2.2.2.1,
   (c5_validate_bin ⟨['r', 't']⟩).2.2.2.2.2,
   (c5_validate_bin ⟨['r', 'b']⟩).2.2.2.1 ['r', 'b'] rfl⟩

/-- C6: every non-empty string whose first character is in `{r,w,x,a}`, whose
remaining characters are in `{r,w,x,t,a,b,+}`, and which does not contain
both `'t'` and `'b'`, is accepted by construction, stringifies back to
itself, and reconstruction from the stringification yields an equal value. -/
theorem c6_str_roundtrip (c : Char) (rest : List Char) (h1 : c ∈ firstChars)
    (h2 : ∀ x ∈ rest, x ∈ validChars)
    (h3 : ¬('t' ∈ c :: rest ∧ 'b' ∈ c :: rest)) :
    ∃ m : Mode, mkMode (c :: rest) = Except.ok m ∧ m.str = c :: rest ∧
      mkMode m.str = Except.ok m := by
  have hsub : ∀ x ∈ firstChars, x ∈ validChars := by decide
  have hv : validate (c :: rest) = Except.ok () := by
    rw [validate_ok_iff]
    refine ⟨by simp, ?_, ?_, h3⟩
    · intro x hx
      rcases List.mem_cons.mp hx with rfl | hx'
      · exact hsub x h1
      · exact h2 x hx'
    · rintro c' rest' heq
      cases heq
      exact h1
  refine ⟨⟨c :: rest⟩, ?_, rfl, ?_⟩
  · unfold mkMode
    rw [hv]
  · show mkMode (c :: rest) = Except.ok ⟨c :: rest⟩
    unfold mkMode
    rw [hv]

/-- Witness for C6 at the mode string "r+". -/
theorem c6_str_roundtrip_witness :
    ∃ m : Mode, mkMode ['r', '+'] = Except.ok m ∧ m.str = ['r', '+'] ∧
      mkMode m.str = Except.ok m :=
  c6_str_roundtrip 'r' ['+'] (by decide) (by decide) (by decide)

/-- C7: `check_readable` constructs `Mode(s)` and returns its reading facet,
`check_writable` does the same with the writing facet, each propagating
construction errors; `check_readable "r+"` is true, `check_readable "w"` is
false, `check_writable "a"` is true and `check_writable "r"` is false. -/
theorem c7_check_readable_writable (s : List Char) :
    (∀ e, mkMode s = Except.error e →
      check_readable s = Except.error e ∧ check_writable s = Except.error e) ∧
    (∀ m, mkMode s = Except.ok m →
      check_readable s = Except.ok m.reading ∧ check_writable s = Except.ok m.writing) ∧
    check_readable ['r', '+'] = Except.ok true ∧
    check_readable ['w'] = Except.ok false ∧
    check_writable ['a'] = Except.ok true ∧
    check_writable ['r'] = Except.ok false := by
  refine ⟨?_, ?_, rfl, rfl, rfl, rfl⟩
  · intro e he
    refine ⟨?_, ?_⟩
    · unfold check_readable
      rw [he]
    · unfold check_writable
      rw [he]
  · intro m hm
    refine ⟨?_, ?_⟩
    · unfold check_readable
      rw [hm]
    · unfold check_writable
      rw [hm]

/-- Witness for C7: the error-free branch evaluated at "r+", and the
error-propagating branch evaluated at the invalid string "z". -/
theorem c7_check_readable_writable_witness :
    (check_readable ['r', '+'] = Except.ok (Mode.reading ⟨['r', '+']⟩) ∧
      check_writable ['r', '+'] = Except.ok (Mode.writing ⟨['r', '+']⟩)) ∧
    (check_readable ['z'] = Except.error ModeError.invalidChars ∧
      check_writable ['z'] = Except.error ModeError.invalidChars) :=
  ⟨(c7_check_readable_writable ['r', '+']).2.1 ⟨['r', '+']⟩ rfl,
   (c7_check_readable_writable ['z']).1 ModeError.invalidChars rfl⟩

theorem removeChar_eq_filter (c : Char) (l : List Char) :
    removeChar c l = l.filter fun x => !(x == c) := by
  induction l with
  | nil => rfl
  | cons a rest ih =>
    cases h : a == c with
    | true => simp [removeChar, List.filter, h, ih]
    | false => simp [removeChar, List.filter, h, ih]

/-- C8: `to_platform` returns the raw mode string unchanged, except when the
target platform lacks exclusive-create support (PY2), in which case it
returns the raw string with every `'x'` removed and all other characters
kept in order (a filter on the raw string). -/
theorem c8_to_platform (m : Mode) :
    m.to_platform false = m.mode ∧
    m.to_platform true = m.mode.filter fun c => !(c == 'x') := by
  refine ⟨rfl, ?_⟩
  show removeChar 'x' m.mode = _
  exact removeChar_eq_filter 'x' m.mode

/-- C9: for every mode string accepted by construction, the text facet is the
negation of the binary facet: the construction-time rejection of strings
containing both `'t'` and `'b'` makes them exactly complementary. -/
theorem c9_text_not_binary (s : List Char) (m : Mode) (h : mkMode s = Except.ok m) :
    m.text = !(m.binary) := by
  have hm := mkMode_mode h
  have hv := mkMode_ok_validate h
  rw [validate_ok_iff] at hv
  rcases hv with ⟨-, -, -, htb⟩
  cases hb : m.mode.contains 'b' with
  | false =>
    show (m.mode.contains 't' || !(m.mode.contains 'b')) = (!(m.mode.contains 'b'))
    rw [hb]
    simp
  | true =>
    have hbB : 'b' ∈ s := contains_iff_mem _ _ |>.mp (hm ▸ hb)
    have htF : 't' ∉ s := fun ht => htb ⟨ht, hbB⟩
    have htc : m.mode.contains 't' = false := by
      cases htc' : m.mode.contains 't' with
      | false => rfl
      | true => exact absurd (contains_iff_mem _ _ |>.mp (hm ▸ htc')) htF
    show (m.mode.contains 't' || !(m.mode.contains 'b')) = (!(m.mode.contains 'b'))
    rw [hb, htc]
    rfl

/-- Witness for C9 at the mode string "rb". -/
theorem c9_text_not_binary_witness :
    Mode.text ⟨['r', 'b']⟩ = !(Mode.binary ⟨['r', 'b']⟩) :=
  c9_text_not_binary ['r', 'b'] ⟨['r', 'b']⟩ rfl

/-- C10: every facet depends only on which characters occur in the raw
string, not on order or multiplicity: two constructed modes whose raw
strings contain the same set of characters agree on all nine facets; and
validity itself is preserved between two strings sharing their first
character and their set of characters (duplicated flags and reordering
after the first character are accepted alike). -/
theorem c10_facets_set_determined (s₁ s₂ : List Char)
    (hset : ∀ x : Char, x ∈ s₁ ↔ x ∈ s₂) :
    (∀ m₁ m₂, mkMode s₁ = Except.ok m₁ → mkMode s₂ = Except.ok m₂ →
      m₁.create = m₂.create ∧ m₁.reading = m₂.reading ∧ m₁.writing = m₂.writing ∧
      m₁.appending = m₂.appending ∧ m₁.updating = m₂.updating ∧
      m₁.truncate = m₂.truncate ∧ m₁.exclusive = m₂.exclusive ∧
      m₁.binary = m₂.binary ∧ m₁.text = m₂.text) ∧
    (∀ c r₁ r₂, s₁ = c :: r₁ → s₂ = c :: r₂ →
      (mkMode s₁).isOk = (mkMode s₂).isOk) := by
  have hcontains : ∀ x : Char, s₁.contains x = s₂.contains x := by
    intro x
    cases h1 : s₁.contains x with
    | true =>
      have := contains_iff_mem s₂ x |>.mpr ((hset x).mp (contains_iff_mem s₁ x |>.mp h1))
      exact this.symm
    | false =>
      cases h2 : s₂.contains x with
      | false => rfl
      | true =>
        have := contains_iff_mem s₁ x |>.mpr ((hset x).mpr (contains_iff_mem s₂ x |>.mp h2))
        rw [h1] at this
        exact this
  constructor
  · intro m₁ m₂ h1 h2
    have hm1 := mkMode_mode h1
    have hm2 := mkMode_mode h2
    have hcc : ∀ x : Char, m₁.containsChar x = m₂.containsChar x := by
      intro x
      show m₁.mode.contains x = m₂.mode.contains x
      rw [hm1, hm2]
      exact hcontains x
    refine ⟨?_, ?_, ?_, ?_, ?_, ?_, ?_, ?_, ?_⟩ <;>
      simp only [Mode.create, Mode.reading, Mode.writing, Mode.appending,
        Mode.updating, Mode.truncate, Mode.exclusive, Mode.binary, Mode.text, hcc]
  · rintro c r₁ r₂ rfl rfl
    rw [mkMode_isOk, mkMode_isOk, Bool.eq_iff_iff, exceptUnit_isOk, exceptUnit_isOk,
      validate_ok_iff, validate_ok_iff]
    constructor
    · rintro ⟨-, hall, hfst, htb⟩
      refine ⟨by simp, ?_, ?_, ?_⟩
      · intro x hx
        exact hall x ((hset x).mpr hx)
      · rintro c' rest' heq
        cases heq
        exact hfst c r₁ rfl
      · rintro ⟨ht, hb⟩
        exact htb ⟨(hset 't').mpr ht, (hset 'b').mpr hb⟩
    · rintro ⟨-, hall, hfst, htb⟩
      refine ⟨by simp, ?_, ?_, ?_⟩
      · intro x hx
        exact hall x ((hset x).mp hx)
      · rintro c' rest' heq
        cases heq
        exact hfst c r₂ rfl
      · rintro ⟨ht, hb⟩
        exact htb ⟨(hset 't').mp ht, (hset 'b').mp hb⟩

/-- Witness for C10 at the pair "rb" and "rbb" (a duplicated flag): the nine
facets agree and validity agrees. -/
theorem c10_facets_set_determined_witness :
    ((Mode.create ⟨['r', 'b']⟩ = Mode.create ⟨['r', 'b', 'b']⟩ ∧
      Mode.reading ⟨['r', 'b']⟩ = Mode.reading ⟨['r', 'b', 'b']⟩ ∧
      Mode.writing ⟨['r', 'b']⟩ = Mode.writing ⟨['r', 'b', 'b']⟩ ∧
      Mode.appending ⟨['r', 'b']⟩ = Mode.appending ⟨['r', 'b', 'b']⟩ ∧
      Mode.updating ⟨['r', 'b']⟩ = Mode.updating ⟨['r', 'b', 'b']⟩ ∧
      Mode.truncate ⟨['r', 'b']⟩ = Mode.truncate ⟨['r', 'b', 'b']⟩ ∧
      Mode.exclusive ⟨['r', 'b']⟩ = Mode.exclusive ⟨['r', 'b', 'b']⟩ ∧
      Mode.binary ⟨['r', 'b']⟩ = Mode.binary ⟨['r', 'b', 'b']⟩ ∧
      Mode.text ⟨['r', 'b']⟩ = Mode.text ⟨['r', 'b', 'b']⟩) ∧
    (mkMode ['r', 'b']).isOk = (mkMode ['r', 'b', 'b']).isOk) := by
  have hset : ∀ x : Char, x ∈ (['r', 'b'] : List Char) ↔ x ∈ (['r', 'b', 'b'] : List Char) := by
    intro x
    constructor
    · intro hx
      rcases List.mem_cons.mp hx with rfl | hx'
      · exact List.mem_cons_self _ _
      · exact List.mem_cons_of_mem _ (List.mem_cons_of_mem _ hx')
    · intro hx
      rcases List.mem_cons.mp hx with rfl | hx'
      · exact List.mem_cons_self _ _
      · rcases List.mem_cons.mp hx' with rfl | hx''
        · exact List.mem_cons_of_mem _ (List.mem_cons_self _ _)
        · exact List.mem_cons_of_mem _ hx''
  have h := c10_facets_set_determined ['r', 'b'] ['r', 'b', 'b'] hset
  exact ⟨h.1 ⟨['r', 'b']⟩ ⟨['r', 'b', 'b']⟩ rfl rfl,
    h.2 'r' ['b'] ['b', 'b'] rfl rfl⟩

end FsMode
